import Mathlib

/-
Verification of the GenMix image-generation pipeline (GeminiGenerator /
BaseGenerator).  The JavaScript source is shallowly embedded: pure string
manipulation is translated to executable Lean functions on `String` /
`List Char`, stateful instance fields (`lastGeneration`, `referenceMetadata`)
become explicit state records, asynchronous effects (network fetch, file
read, sharp metadata decoding, file writes) are supplied by explicit
environment records, and thrown JavaScript errors become `Except String`.
-/

deriving instance DecidableEq for Except

namespace GenMix

/-! ### Basic string machinery modelling the JavaScript string operations -/

/-- Strip `pre` from the front of `l`; `some` of the remainder exactly when
`pre` is a prefix.  Models anchored prefix matching of JS regexes and
`String.prototype.startsWith`. -/
def dropPrefixList : List Char → List Char → Option (List Char)
  | [], l => some l
  | _ :: _, [] => none
  | a :: as, b :: bs => if a = b then dropPrefixList as bs else none

/-- Model of `s.startsWith(pre)`. -/
def strStartsWith (s pre : String) : Bool :=
  (dropPrefixList pre.data s.data).isSome

/-- Model of `hay.includes(sub)` (substring test used by the merge step). -/
def containsSub (sub : List Char) : List Char → Bool
  | [] => sub.isEmpty
  | c :: rest => (dropPrefixList sub (c :: rest)).isSome || containsSub sub rest

/-- Model of `String.prototype.toLowerCase` for the ASCII range in which all
file extensions handled by the code live. -/
def lowerStr (s : String) : String := String.mk (s.data.map Char.toLower)

theorem dropPrefixList_eq_some {p l t : List Char} :
    dropPrefixList p l = some t ↔ l = p ++ t := by
  induction p generalizing l with
  | nil =>
    simp [dropPrefixList, eq_comm]
  | cons a as ih =>
    cases l with
    | nil => simp [dropPrefixList]
    | cons b bs =>
      by_cases hab : a = b
      · subst hab
        simp [dropPrefixList, ih]
      · simp [dropPrefixList, hab, Ne.symm hab]

theorem dropPrefixList_self_append (p t : List Char) :
    dropPrefixList p (p ++ t) = some t :=
  dropPrefixList_eq_some.mpr rfl

/-! ### Response envelope model (GeminiGenerator.processResponse)

The remote boundary returns either a single JSON object or an array of
streamed chunks; each chunk optionally carries `candidates`, each candidate
optionally `content`, each content optionally `parts`; a part may carry a
`text` string and/or an `inlineData` object whose `mimeType` may itself be
absent.  Absent JSON fields are modelled with `Option`. -/

structure InlineData where
  mimeType : Option String := none
  data : String := ""
deriving DecidableEq

structure Part where
  text : Option String := none
  inlineData : Option InlineData := none
deriving DecidableEq

structure Content where
  parts : Option (List Part) := none
deriving DecidableEq

structure Candidate where
  content : Option Content := none
deriving DecidableEq

structure Chunk where
  candidates : Option (List Candidate) := none
deriving DecidableEq

inductive Envelope where
  | one (c : Chunk)
  | many (cs : List Chunk)
deriving DecidableEq

/-- `Array.isArray(data) ? data : [data]`. -/
def Envelope.chunks : Envelope → List Chunk
  | .one c => [c]
  | .many cs => cs

structure ParseResult where
  images : List String
  text : String
  raw : Envelope
deriving DecidableEq

/-- Message standing for the JavaScript `TypeError` raised when
`part.inlineData.mimeType` is `undefined` and `.startsWith` is called on it. -/
def typeErrMsg : String := "TypeError: reading startsWith of undefined"

/-- One iteration of the innermost loop of `processResponse`: first the
`part.text` truthiness check appends text, then the
`part.inlineData && part.inlineData.mimeType.startsWith( ... )` check pushes a
data URI; calling `.startsWith` on an absent `mimeType` throws. -/
def processPart (acc : List String × String) (p : Part) :
    Except String (List String × String) :=
  let acc1 := match p.text with
    | some t => if t = "" then acc else (acc.1, acc.2 ++ t)
    | none => acc
  match p.inlineData with
  | none => .ok acc1
  | some d =>
    match d.mimeType with
    | none => .error typeErrMsg
    | some m =>
      if strStartsWith m "image/" then
        .ok (acc1.1 ++ ["data:" ++ m ++ ";base64," ++ d.data], acc1.2)
      else
        .ok acc1

def processParts (acc : List String × String) :
    List Part → Except String (List String × String)
  | [] => .ok acc
  | p :: rest =>
    match processPart acc p with
    | .ok acc2 => processParts acc2 rest
    | .error e => .error e

/-- `if (candidate.content && candidate.content.parts)` guard. -/
def processCandidate (acc : List String × String) (cand : Candidate) :
    Except String (List String × String) :=
  match cand.content with
  | none => .ok acc
  | some ct =>
    match ct.parts with
    | none => .ok acc
    | some ps => processParts acc ps

def processCandidates (acc : List String × String) :
    List Candidate → Except String (List String × String)
  | [] => .ok acc
  | c :: rest =>
    match processCandidate acc c with
    | .ok acc2 => processCandidates acc2 rest
    | .error e => .error e

/-- `if (chunk.candidates)` guard; an empty candidate array is truthy in JS
and loops zero times, observationally equal to skipping. -/
def processChunk (acc : List String × String) (ch : Chunk) :
    Except String (List String × String) :=
  match ch.candidates with
  | none => .ok acc
  | some cs => processCandidates acc cs

def processChunks (acc : List String × String) :
    List Chunk → Except String (List String × String)
  | [] => .ok acc
  | c :: rest =>
    match processChunk acc c with
    | .ok acc2 => processChunks acc2 rest
    | .error e => .error e

/-- `GeminiGenerator.processResponse`. -/
def processResponse (e : Envelope) : Except String ParseResult :=
  match processChunks ([], "") e.chunks with
  | .ok acc => .ok { images := acc.1, text := acc.2, raw := e }
  | .error err => .error err

/-! ### Base64 (Node `Buffer.prototype.toString` with the base64 alphabet) -/

def b64Alphabet : List Char :=
  "ABCDEFGHIJKLMNOPQRSTUVWXYZabcdefghijklmnopqrstuvwxyz0123456789+/".data

def b64Digit (n : Nat) : Char := b64Alphabet.getD n 'A'

def b64EncodeAux : List Nat → List Char
  | a :: b :: c :: rest =>
    let n := (a % 256) * 65536 + (b % 256) * 256 + c % 256
    b64Digit (n / 262144) :: b64Digit (n / 4096 % 64) ::
      b64Digit (n / 64 % 64) :: b64Digit (n % 64) :: b64EncodeAux rest
  | [a, b] =>
    let n := (a % 256) * 65536 + (b % 256) * 256
    [b64Digit (n / 262144), b64Digit (n / 4096 % 64), b64Digit (n / 64 % 64), '=']
  | [a] =>
    let n := (a % 256) * 65536
    [b64Digit (n / 262144), b64Digit (n / 4096 % 64), '=', '=']
  | [] => []

/-- `buffer.toString(base64)` on a byte list. -/
def b64Encode (bytes : List Nat) : String := String.mk (b64EncodeAux bytes)

/-! ### Reference image resolution (GeminiGenerator._processReferenceImage)

The data-URI branch applies the anchored JS regex
`^data:(image\/[^;]+);base64,(.+)$` (no `m`/`s` flags, so `.` excludes the
four JS line terminators and `$` is end of input). -/

/-- A character matched by an unflagged JS regex dot. -/
def jsDotChar (c : Char) : Bool :=
  !(c = '\n' || c = '\r' || c = Char.ofNat 0x2028 || c = Char.ofNat 0x2029)

/-- Split at the first semicolon: `l = a ++ (semicolon) :: b` with `a`
semicolon-free.  Models the greedy `[^;]+` followed by a literal `;`. -/
def splitAtSemi : List Char → Option (List Char × List Char)
  | [] => none
  | c :: rest =>
    if c = ';' then some ([], rest)
    else
      match splitAtSemi rest with
      | some (a, b) => some (c :: a, b)
      | none => none

/-- Continuation of the matcher after the first semicolon: group 1 needs a
nonempty subtype, then the literal `base64,`, then a nonempty payload of
dot-matchable characters reaching the end of input. -/
def dataUriAfterSemi (sub u : List Char) : Option (List Char × List Char) :=
  if sub = [] then none
  else
    (dropPrefixList "base64,".data u).bind fun payload =>
      if payload = [] then none
      else if payload.all jsDotChar then some (sub, payload) else none

/-- Matcher for `^data:(image\/[^;]+);base64,(.+)$` on the character list,
returning the subtype part of group 1 and group 2. -/
def dataUriMatchL (l : List Char) : Option (List Char × List Char) :=
  (dropPrefixList "data:image/".data l).bind fun t =>
    (splitAtSemi t).bind fun su => dataUriAfterSemi su.1 su.2

/-- `imageInput.match(regex)`: `some (mimeType, base64Data)` on success. -/
def dataUriMatch (s : String) : Option (String × String) :=
  (dataUriMatchL s.data).map fun sp =>
    (String.mk ("image/".data ++ sp.1), String.mk sp.2)

/-- The strict pattern `image/<subtype>;base64,<payload>` stated
declaratively from the specification text, to be proved equivalent to the
executable matcher used by the code path. -/
def StrictDataUriSpec (s mime payload : String) : Prop :=
  ∃ sub : List Char,
    sub ≠ [] ∧ (∀ c ∈ sub, c ≠ ';') ∧
    payload.data ≠ [] ∧ (∀ c ∈ payload.data, jsDotChar c = true) ∧
    s.data = "data:image/".data ++ sub ++ ";base64,".data ++ payload.data ∧
    mime.data = "image/".data ++ sub

/-! ### Metadata inference (GeminiGenerator._extractReferenceMetadata) -/

/-- The `formatOptions` object built by metadata inference and accepted by
`save`; absent JS properties are `none` / `false`. -/
structure FormatOptions where
  format : Option String := none
  width : Option Nat := none
  height : Option Nat := none
  quality : Option Nat := none
  compressionLevel : Option Nat := none
  effort : Option Nat := none
  palette : Bool := false
  colours : Option Nat := none
deriving DecidableEq

/-- The slice of `sharp.metadata()` consulted by the inference code. -/
structure SharpMeta where
  format : String
  width : Nat
  height : Nat
  paletteBitDepth : Option Nat := none
deriving DecidableEq

structure FetchResponse where
  body : List Nat
  contentType : Option String := none
deriving DecidableEq

/-- External collaborators: axios GET, `fs.readFileSync`, `sharp` metadata
decoding, `fs.statSync` size, and the raw pixel decode
(`sharp(path).raw().toBuffer()` as flat channel data plus channel count). -/
structure Env where
  fetch : String → Except String FetchResponse
  readFile : String → Except String (List Nat)
  meta : String → Except String SharpMeta
  stat : String → Except String Nat
  rawPixels : String → Except String (List Nat × Nat)

/-- Group the flat channel buffer into per-pixel tuples of `k` channels
(the `for (i += pixelSize)` loop; `k ≥ 1` for any image sharp can decode). -/
def pixelTuples (k : Nat) : List Nat → List (List Nat)
  | [] => []
  | a :: rest => (a :: rest.take (k - 1)) :: pixelTuples k (rest.drop (k - 1))
termination_by l => l.length
decreasing_by
  simp only [List.length_cons, List.length_drop]
  omega

/-- `colors.add(color.join(,)); colors.size` — the number of distinct
per-pixel channel tuples actually present. -/
def countColours (data : List Nat) (channels : Nat) : Nat :=
  (pixelTuples channels data).dedup.length

/-- The body of the `try` block of `_extractReferenceMetadata` after
metadata and file size are available.  The lossy quality buckets compare
`size / (width*height)` against 0.5 / 1 (exact rational comparison; with a
zero pixel count the JS division yields NaN or Infinity and every `<` test
is false, landing on quality 90 as modelled by the guards). -/
def buildFormatOptions (env : Env) (p : String) (md : SharpMeta) (size : Nat) :
    FormatOptions :=
  let base : FormatOptions :=
    { format := some md.format, width := some md.width, height := some md.height }
  if md.format = "jpeg" ∨ md.format = "jpg" then
    let pc := md.width * md.height
    let q := if 0 < pc ∧ 2 * size < pc then 70
             else if 0 < pc ∧ size < pc then 80
             else 90
    { base with quality := some q }
  else if md.format = "png" then
    let b1 := { base with compressionLevel := some 9 }
    match md.paletteBitDepth with
    | some d =>
      if d ≠ 0 then
        let cols := match env.rawPixels p with
          | .ok (dat, channels) => countColours dat channels
          | .error _ => 2 ^ d
        { b1 with palette := true, quality := some 90, effort := some 9,
                  colours := some cols }
      else b1
    | none => b1
  else if md.format = "webp" then { base with quality := some 80 }
  else base

/-- The fallible part of `_extractReferenceMetadata`: awaiting
`sharp(path).metadata()` and `fs.statSync(path)` can throw. -/
def extractReferenceMetadataBody (env : Env) (p : String) :
    Except String FormatOptions :=
  match env.meta p with
  | .error e => .error e
  | .ok md =>
    match env.stat p with
    | .error e => .error e
    | .ok size => .ok (buildFormatOptions env p md size)

/-- `GeminiGenerator._extractReferenceMetadata` acting on the
`this.referenceMetadata` slot: the whole body is wrapped in `try/catch`
whose handler only warns, so a failure leaves the slot as it was. -/
def extractReferenceMetadata (env : Env) (st : Option FormatOptions)
    (p : String) : Option FormatOptions :=
  match extractReferenceMetadataBody env p with
  | .ok fo => some fo
  | .error _ => st

/-- `GeminiGenerator.getReferenceMetadata` on the metadata slot. -/
def getReferenceMetadata (st : Option FormatOptions) : Option FormatOptions := st

/-! ### `_processReferenceImage` -/

/-- A reference image argument: `Buffer.isBuffer` or a string (any other
JS value throws immediately and is not modelled). -/
inductive RefInput where
  | buffer (bytes : List Nat)
  | str (s : String)

/-- Observable I/O performed during resolution. -/
inductive Effect where
  | fetched (url : String)
  | fileRead (p : String)
deriving DecidableEq

structure RefImage where
  data : String
  mimeType : String
deriving DecidableEq

/-- Model of Node `path.extname` for POSIX paths: the part of the final
segment from its last dot, empty for dotfiles and dotless names. -/
def extnameL (l : List Char) : List Char :=
  let b := (l.reverse.takeWhile (fun c => c ≠ '/')).reverse
  match splitAtDot b.reverse with
  | some (revExt, revStem) =>
    if revStem = [] then [] else '.' :: revExt.reverse
  | none => []
where
  splitAtDot : List Char → Option (List Char × List Char)
    | [] => none
    | c :: rest =>
      if c = '.' then some ([], rest)
      else
        match splitAtDot rest with
        | some (a, b) => some (c :: a, b)
        | none => none

/-- `path.extname(imageInput).toLowerCase()`. -/
def extnameLower (s : String) : String := lowerStr (String.mk (extnameL s.data))

/-- The fixed extension → MIME table, defaulting to `image/png`. -/
def mimeFromExt (e : String) : String :=
  if e = ".png" then "image/png"
  else if e = ".jpg" then "image/jpeg"
  else if e = ".jpeg" then "image/jpeg"
  else if e = ".gif" then "image/gif"
  else if e = ".webp" then "image/webp"
  else "image/png"

/-- The image MIME types the fixed table can produce. -/
def allowList : List String :=
  ["image/png", "image/jpeg", "image/gif", "image/webp"]

/-- `GeminiGenerator._processReferenceImage`, threading the
`referenceMetadata` slot and recording the I/O effects performed. -/
def processReferenceImage (env : Env) (st : Option FormatOptions) :
    RefInput → Except String (RefImage × Option FormatOptions) × List Effect
  | .buffer b => (.ok ({ data := b64Encode b, mimeType := "image/png" }, st), [])
  | .str s =>
    if strStartsWith s "data:image/" then
      match dataUriMatch s with
      | some (m, payload) => (.ok ({ data := payload, mimeType := m }, st), [])
      | none => (.error "Invalid data URI format for reference image", [])
    else if strStartsWith s "http://" || strStartsWith s "https://" then
      match env.fetch s with
      | .ok resp =>
        let mt := match resp.contentType with
          | some ct => if ct = "" then "image/png" else ct
          | none => "image/png"
        (.ok ({ data := b64Encode resp.body, mimeType := mt }, st), [.fetched s])
      | .error msg =>
        (.error ("Failed to download reference image from URL: " ++ msg),
         [.fetched s])
    else
      match env.readFile s with
      | .ok bytes =>
        let mt := mimeFromExt (extnameLower s)
        (.ok ({ data := b64Encode bytes, mimeType := mt },
              extractReferenceMetadata env st s),
         [.fileRead s])
      | .error msg =>
        (.error ("Failed to read reference image file: " ++ msg), [.fileRead s])

/-! ### Fan-out (GeminiGenerator.generateMultiple)

`Promise.all` over the `count` sub-request promises.  The sub-request
outcomes are indexed by request position; the order in which the promises
settle is an arbitrary traversal `order` of those positions.  `Promise.all`
fulfills with the results in index order, and rejects with the error of the
first promise to reject in completion order. -/

structure MergedResult where
  images : List String
  text : String
  raw : List Envelope
deriving DecidableEq

/-- The error of the first sub-request, in completion order, that failed. -/
def firstRejection (outcomes : List (Except String ParseResult)) :
    List Nat → Option String
  | [] => none
  | i :: rest =>
    match outcomes[i]? with
    | some (.error e) => some e
    | some (.ok _) => firstRejection outcomes rest
    | none => firstRejection outcomes rest

/-- The fulfilled values in request-index order. -/
def collectOks (outcomes : List (Except String ParseResult)) : List ParseResult :=
  outcomes.filterMap fun o =>
    match o with
    | .ok r => some r
    | .error _ => none

/-- `await Promise.all(promises)`. -/
def promiseAll (outcomes : List (Except String ParseResult))
    (order : List Nat) : Except String (List ParseResult) :=
  match firstRejection outcomes order with
  | some e => .error e
  | none => .ok (collectOks outcomes)

/-- One iteration of the merge loop: concatenate images; append text only
when truthy and not already an included substring, followed by a newline. -/
def mergeStep (acc : MergedResult) (r : ParseResult) : MergedResult :=
  { acc with
    images := acc.images ++ r.images,
    text := if r.text ≠ "" ∧ containsSub r.text.data acc.text.data = false then
              acc.text ++ r.text ++ "\n"
            else acc.text }

/-- The merged object built from the fulfilled sub-results. -/
def mergeResults (results : List ParseResult) : MergedResult :=
  results.foldl mergeStep
    { images := [], text := "", raw := results.map (·.raw) }

/-- `GeminiGenerator.generateMultiple` given the sub-request outcomes and
their completion order. -/
def generateMultiple (outcomes : List (Except String ParseResult))
    (order : List Nat) : Except String MergedResult :=
  match promiseAll outcomes order with
  | .ok results => .ok (mergeResults results)
  | .error e => .error e

/-! ### Persistence (BaseGenerator.save)

`save({directory, filename, extension, formatOptions})`.  The sharp
re-encode and `toFile` write for image `index` is an external effect whose
outcome is supplied by `w index` (`none` = written, `some msg` = the codec
or I/O error thrown).  The hash-factory call (salted, time-dependent) is
supplied as `hashFn`. -/

structure Generation where
  prompt : String
  images : List String
deriving DecidableEq

/-- The mutable instance state read by `save`. -/
structure GenState where
  lastGeneration : Option Generation := none
  referenceMetadata : Option FormatOptions := none
deriving DecidableEq

structure SaveOptions where
  directory : String := "."
  filename : Option String := none
  extension : String := "jpg"
  formatOptions : Option FormatOptions := none

/-- The sharp format options object assembled for `toFormat`. -/
structure SharpOpts where
  quality : Option Nat := none
  compressionLevel : Option Nat := none
  effort : Option Nat := none
  palette : Bool := false
  dither : Bool := false
  colours : Option Nat := none
deriving DecidableEq

/-- JS truthiness of an optional numeric property. -/
def truthyNat : Option Nat → Bool
  | some n => n ≠ 0
  | none => false

/-- JS truthiness of an optional string property. -/
def truthyStr : Option String → Bool
  | some s => s ≠ ""
  | none => false

/-- `formatOptions && formatOptions.format ? formatOptions.format : extension`. -/
def effectiveExt (o : SaveOptions) : String :=
  match o.formatOptions with
  | some f =>
    match f.format with
    | some fmt => if fmt = "" then o.extension else fmt
    | none => o.extension
  | none => o.extension

/-- `extension.toLowerCase().replace(/^\./, "")` — lower-case then strip a
single leading dot. -/
def normalizeExt (e : String) : String :=
  match (lowerStr e).data with
  | '.' :: rest => String.mk rest
  | _ => lowerStr e

def supportedFormats : List String :=
  ["jpg", "jpeg", "png", "webp", "avif", "tiff", "tif"]

def unsupportedMsg (ext : String) : String :=
  "Unsupported extension: " ++ ext ++
    ". Supported formats: jpg, jpeg, png, webp, avif, tiff, tif"

/-- The per-format options block guarded by `if (formatOptions)`. -/
def buildSharpOpts (sharpFormat : String) (fo : Option FormatOptions) :
    SharpOpts :=
  match fo with
  | none => {}
  | some f =>
    if sharpFormat = "jpg" ∧ truthyNat f.quality then
      { quality := f.quality }
    else if sharpFormat = "png" then
      { compressionLevel := f.compressionLevel,
        quality := f.quality,
        effort := f.effort,
        palette := f.palette,
        dither := f.palette,
        colours := if truthyNat f.colours then f.colours else none }
    else if sharpFormat = "webp" ∧ truthyNat f.quality then
      { quality := f.quality }
    else {}

/-- `formatOptions && formatOptions.width && formatOptions.height` resize. -/
def resizeOf (fo : Option FormatOptions) : Option (Nat × Nat) :=
  match fo with
  | some f =>
    if truthyNat f.width ∧ truthyNat f.height then
      match f.width, f.height with
      | some w, some h => some (w, h)
      | _, _ => none
    else none
  | none => none

/-- Strip the transport prefix `^data:image\/\w+;base64,` if present
(`\w` = ASCII letter, digit or underscore). -/
def stripDataPrefix (s : String) : String :=
  match dropPrefixList "data:image/".data s.data with
  | none => s
  | some t =>
    let word := t.takeWhile fun c =>
      c.isAlpha || c.isDigit || c = '_'
    if word = [] then s
    else
      match dropPrefixList ";base64,".data (t.drop word.length) with
      | some rest => String.mk rest
      | none => s

/-- Model of `path.join` restricted to separator insertion; the claims only
depend on the file name component. -/
def pathJoin (d f : String) : String :=
  if d = "" then f
  else if d.endsWith "/" then d ++ f
  else d ++ "/" ++ f

structure SavedFile where
  name : String
  path : String
  payload : String
  resize : Option (Nat × Nat)
  format : String
  opts : SharpOpts
deriving DecidableEq

/-- The file-name derivation inside the loop: a truthy caller stem is used
directly, with a zero-based `_index` suffix only when there are multiple
images; otherwise the salted hash of `prompt + "_" + index`. -/
def saveName (fileExt : String) (hashFn : String → String)
    (fname : Option String) (prompt : String) (multi : Bool) (idx : Nat) :
    String :=
  if truthyStr fname then
    let stem := fname.getD ""
    if multi then stem ++ "_" ++ toString idx ++ "." ++ fileExt
    else stem ++ "." ++ fileExt
  else hashFn (prompt ++ "_" ++ toString idx) ++ "." ++ fileExt

/-- The `for (index …)` loop of `save`: build the file name, re-encode and
write.  Returns the loop outcome and the files actually written (an abort
leaves earlier files on disk). -/
def saveLoop (w : Nat → Option String) (dir fileExt sharpFormat : String)
    (fo : Option FormatOptions) (hashFn : String → String)
    (fname : Option String) (prompt : String) (multi : Bool) :
    Nat → List String → Except String Unit × List SavedFile
  | _, [] => (.ok (), [])
  | idx, img :: rest =>
    let nm := saveName fileExt hashFn fname prompt multi idx
    let file : SavedFile :=
      { name := nm, path := pathJoin dir nm, payload := stripDataPrefix img,
        resize := resizeOf fo, format := sharpFormat,
        opts := buildSharpOpts sharpFormat fo }
    match w idx with
    | some err => (.error err, [])
    | none =>
      let r := saveLoop w dir fileExt sharpFormat fo hashFn fname prompt multi
        (idx + 1) rest
      (r.1, file :: r.2)

/-- `BaseGenerator.save`: the result (saved paths or the thrown error) and
the files written. -/
def save (hashFn : String → String) (w : Nat → Option String) (st : GenState)
    (o : SaveOptions) : Except String (List String) × List SavedFile :=
  match st.lastGeneration with
  | none => (.ok [], [])
  | some gen =>
    if gen.images.isEmpty then (.ok [], [])
    else
      let ext := normalizeExt (effectiveExt o)
      if (supportedFormats.contains ext) = false then
        (.error (unsupportedMsg ext), [])
      else
        let sharpFormat := if ext = "jpeg" then "jpg" else ext
        let fileExtension := if ext = "jpeg" then "jpg" else ext
        let r := saveLoop w o.directory fileExtension sharpFormat
          o.formatOptions hashFn o.filename gen.prompt
          (decide (1 < gen.images.length)) 0 gen.images
        match r.1 with
        | .ok _ => (.ok (r.2.map (·.path)), r.2)
        | .error e => (.error e, r.2)

/-- The extension actually carried by saved files (`jpeg` collapses to
`jpg`); the same computation also selects the sharp target format. -/
def fileExtOf (o : SaveOptions) : String :=
  let ext := normalizeExt (effectiveExt o)
  if ext = "jpeg" then "jpg" else ext

/-! ## Helper lemmas about `save` -/

theorem save_unsupported_helper (hashFn : String → String)
    (w : Nat → Option String) (st : GenState) (o : SaveOptions)
    (g : Generation) (hg : st.lastGeneration = some g) (hne : g.images ≠ [])
    (hbad : supportedFormats.contains (normalizeExt (effectiveExt o)) = false) :
    save hashFn w st o
      = (.error (unsupportedMsg (normalizeExt (effectiveExt o))), []) := by
  obtain ⟨a, l, himg⟩ : ∃ a l, g.images = a :: l := by
    cases h : g.images with
    | nil => exact absurd h hne
    | cons a l => exact ⟨a, l, rfl⟩
  simp only [save, hg, himg, List.isEmpty_cons, Bool.false_eq_true, if_false,
    hbad, if_pos]

theorem saveLoop_written_shape (w : Nat → Option String)
    (dir fileExt sharpFormat : String) (fo : Option FormatOptions)
    (hashFn : String → String) (fname : Option String) (prompt : String)
    (multi : Bool) :
    ∀ (imgs : List String) (idx : Nat) (file : SavedFile),
      file ∈ (saveLoop w dir fileExt sharpFormat fo hashFn fname prompt multi
        idx imgs).2 →
      file.format = sharpFormat ∧ file.opts = buildSharpOpts sharpFormat fo ∧
        file.resize = resizeOf fo ∧ ∃ s, file.name = s ++ "." ++ fileExt := by
  intro imgs
  induction imgs with
  | nil =>
    intro idx file h
    simp [saveLoop] at h
  | cons img rest ih =>
    intro idx file h
    simp only [saveLoop] at h
    cases hw : w idx with
    | some err => rw [hw] at h; simp at h
    | none =>
      rw [hw] at h
      simp only [List.mem_cons] at h
      cases h with
      | inl hfile =>
        subst hfile
        refine ⟨rfl, rfl, rfl, ?_⟩
        unfold saveName
        split
        · split
          · exact ⟨_, rfl⟩
          · exact ⟨_, rfl⟩
        · exact ⟨_, rfl⟩
      | inr hrest => exact ih (idx + 1) file hrest

theorem save_written_shape (hashFn : String → String) (w : Nat → Option String)
    (st : GenState) (o : SaveOptions) :
    ∀ file ∈ (save hashFn w st o).2,
      file.format = fileExtOf o ∧
        file.opts = buildSharpOpts (fileExtOf o) o.formatOptions ∧
        file.resize = resizeOf o.formatOptions ∧
        ∃ s, file.name = s ++ "." ++ fileExtOf o := by
  intro file hmem
  cases hg : st.lastGeneration with
  | none => simp only [save, hg] at hmem; simp at hmem
  | some g =>
    cases himg : g.images with
    | nil => simp only [save, hg, himg, List.isEmpty_nil, if_true] at hmem
             simp at hmem
    | cons a l =>
      simp only [save, hg, himg, List.isEmpty_cons, Bool.false_eq_true,
        if_false] at hmem
      by_cases hsup :
          supportedFormats.contains (normalizeExt (effectiveExt o)) = false
      · simp only [hsup, if_pos] at hmem
        simp at hmem
      · rw [Bool.not_eq_false] at hsup
        simp only [hsup, Bool.true_eq_false, if_false] at hmem
        have hshape := saveLoop_written_shape w o.directory
          (if normalizeExt (effectiveExt o) = "jpeg" then "jpg"
            else normalizeExt (effectiveExt o))
          (if normalizeExt (effectiveExt o) = "jpeg" then "jpg"
            else normalizeExt (effectiveExt o))
          o.formatOptions hashFn o.filename g.prompt
          (decide (1 < (a :: l).length)) (a :: l) 0 file
        rw [show fileExtOf o
            = (if normalizeExt (effectiveExt o) = "jpeg" then "jpg"
                else normalizeExt (effectiveExt o)) from rfl]
        cases hr : (saveLoop w o.directory
            (if normalizeExt (effectiveExt o) = "jpeg" then "jpg"
              else normalizeExt (effectiveExt o))
            (if normalizeExt (effectiveExt o) = "jpeg" then "jpg"
              else normalizeExt (effectiveExt o))
            o.formatOptions hashFn o.filename g.prompt
            (decide (1 < (a :: l).length)) 0 (a :: l)).1 with
        | ok u => rw [hr] at hmem; exact hshape (by simpa using hmem)
        | error e => rw [hr] at hmem; exact hshape (by simpa using hmem)

theorem saveLoop_all_ok (w : Nat → Option String)
    (dir fileExt sharpFormat : String) (fo : Option FormatOptions)
    (hashFn : String → String) (fname : Option String) (prompt : String)
    (multi : Bool) (hw : ∀ i, w i = none) :
    ∀ (imgs : List String) (idx : Nat),
      (saveLoop w dir fileExt sharpFormat fo hashFn fname prompt multi
        idx imgs).1 = .ok () ∧
      ((saveLoop w dir fileExt sharpFormat fo hashFn fname prompt multi
        idx imgs).2).map (·.name)
        = (List.range imgs.length).map
            (fun k => saveName fileExt hashFn fname prompt multi (idx + k)) := by
  intro imgs
  induction imgs with
  | nil => intro idx; exact ⟨rfl, rfl⟩
  | cons img rest ih =>
    intro idx
    have h1 := (ih (idx + 1)).1
    have h2 := (ih (idx + 1)).2
    constructor
    · simp only [saveLoop, hw idx]
      exact h1
    · simp only [saveLoop, hw idx, List.map_cons, List.length_cons,
        List.range_succ_eq_map, List.map_map]
      rw [h2]
      refine congrArg₂ _ (by simp) ?_
      refine List.map_congr_left ?_
      intro k _
      simp only [Function.comp_apply]
      exact congrArg _ (by omega)

/-! ## C4 — unsupported target extension fails with `UnsupportedFormat`
and writes no image file -/

/-- C4: whenever the target extension — after the `formatOptions.format`
override, lower-casing and stripping one leading dot — is outside the
supported set and the last generation holds at least one image, `save`
throws the unsupported-extension error and writes zero image files. -/
theorem save_unsupported_ext (hashFn : String → String)
    (w : Nat → Option String) (st : GenState) (o : SaveOptions)
    (g : Generation) (hg : st.lastGeneration = some g) (hne : g.images ≠ [])
    (hbad : supportedFormats.contains (normalizeExt (effectiveExt o)) = false) :
    save hashFn w st o
      = (.error (unsupportedMsg (normalizeExt (effectiveExt o))), []) :=
  save_unsupported_helper hashFn w st o g hg hne hbad

theorem save_unsupported_ext_witness :
    save (fun s => s) (fun _ => none)
      { lastGeneration := some { prompt := "p", images := ["AA"] } }
      { extension := "bmp" }
      = (.error (unsupportedMsg "bmp"), []) := by
  have h := save_unsupported_ext (fun s => s) (fun _ => none)
    { lastGeneration := some { prompt := "p", images := ["AA"] } }
    { extension := "bmp" }
    { prompt := "p", images := ["AA"] } rfl (by decide) (by decide)
  rw [h]
  rfl

/-! ## C5 — caller-supplied filename stem naming -/

/-- C5: with a caller-supplied (truthy) filename stem, a valid extension and
all writes succeeding, `save` succeeds returning the written paths, and the
i-th file is named `{stem}.{ext}` when there is exactly one image and
`{stem}_{i}.{ext}` (zero-based) when there are two or more. -/
theorem save_stem_naming (hashFn : String → String)
    (w : Nat → Option String) (st : GenState) (o : SaveOptions)
    (g : Generation) (stem : String)
    (hg : st.lastGeneration = some g) (hne : g.images ≠ [])
    (hf : o.filename = some stem) (hstem : stem ≠ "")
    (hsup : supportedFormats.contains (normalizeExt (effectiveExt o)) = true)
    (hw : ∀ i, w i = none) :
    (save hashFn w st o).1 = .ok (((save hashFn w st o).2).map (·.path)) ∧
    ((save hashFn w st o).2).map (·.name)
      = (List.range g.images.length).map (fun i =>
          if g.images.length = 1 then stem ++ "." ++ fileExtOf o
          else stem ++ "_" ++ toString i ++ "." ++ fileExtOf o) := by
  obtain ⟨a, l, himg⟩ : ∃ a l, g.images = a :: l := by
    cases h : g.images with
    | nil => exact absurd h hne
    | cons a l => exact ⟨a, l, rfl⟩
  have hloop := saveLoop_all_ok w o.directory (fileExtOf o) (fileExtOf o)
    o.formatOptions hashFn o.filename g.prompt
    (decide (1 < (a :: l).length)) hw (a :: l) 0
  have hunf : save hashFn w st o
      = (.ok (((saveLoop w o.directory (fileExtOf o) (fileExtOf o)
          o.formatOptions hashFn o.filename g.prompt
          (decide (1 < (a :: l).length)) 0 (a :: l)).2).map (·.path)),
        (saveLoop w o.directory (fileExtOf o) (fileExtOf o)
          o.formatOptions hashFn o.filename g.prompt
          (decide (1 < (a :: l).length)) 0 (a :: l)).2) := by
    simp only [save, hg, himg, List.isEmpty_cons, Bool.false_eq_true, if_false,
      hsup, Bool.true_eq_false, if_false]
    rw [show (if normalizeExt (effectiveExt o) = "jpeg" then "jpg"
        else normalizeExt (effectiveExt o)) = fileExtOf o from rfl]
    rw [hloop.1]
  rw [hunf]
  refine ⟨rfl, ?_⟩
  rw [hloop.2]
  rw [himg]
  refine List.map_congr_left ?_
  intro k hk
  rw [List.mem_range] at hk
  rw [show (0 : Nat) + k = k from by omega]
  unfold saveName
  rw [hf]
  have htr : truthyStr (some stem) = true := by
    simp [truthyStr, hstem]
  rw [htr]
  simp only [if_true, Option.getD_some]
  by_cases hlen : (a :: l).length = 1
  · rw [hlen]
    simp
  · rw [if_neg hlen]
    have hgt : decide (1 < (a :: l).length) = true := by
      have hlb : 1 ≤ (a :: l).length := by simp
      have : 1 < (a :: l).length := by omega
      simpa using this
    rw [hgt]
    simp

theorem save_stem_naming_witness :
    (save (fun s => s) (fun _ => none)
      { lastGeneration := some { prompt := "p", images := ["AA", "BB"] } }
      { directory := "out", filename := some "f", extension := "png" }).2.map
        (·.name) = ["f_0.png", "f_1.png"] ∧
    (save (fun s => s) (fun _ => none)
      { lastGeneration := some { prompt := "p", images := ["AA"] } }
      { directory := "out", filename := some "f", extension := "png" }).2.map
        (·.name) = ["f.png"] := by
  constructor
  · have h := (save_stem_naming (fun s => s) (fun _ => none)
      { lastGeneration := some { prompt := "p", images := ["AA", "BB"] } }
      { directory := "out", filename := some "f", extension := "png" }
      { prompt := "p", images := ["AA", "BB"] } "f" rfl (by decide) rfl
      (by decide) (by decide) (fun _ => rfl)).2
    rw [h]
    decide
  · have h := (save_stem_naming (fun s => s) (fun _ => none)
      { lastGeneration := some { prompt := "p", images := ["AA"] } }
      { directory := "out", filename := some "f", extension := "png" }
      { prompt := "p", images := ["AA"] } "f" rfl (by decide) rfl
      (by decide) (by decide) (fun _ => rfl)).2
    rw [h]
    decide

/-! ## C10 — `formatOptions.format` replaces the extension argument -/

/-- C10: a truthy `formatOptions.format` replaces the `extension` argument
(default included) before normalization and validation: `save` is
insensitive to the `extension` argument, an unsupported `format` value
fails with the unsupported-extension error even though `extension` itself
may be supported, and on success every written file carries the format and
extension derived from `formatOptions.format`. -/
theorem save_format_override (hashFn : String → String)
    (w : Nat → Option String) (st : GenState) (o : SaveOptions)
    (f : FormatOptions) (fmt : String)
    (hfo : o.formatOptions = some f) (hfmt : f.format = some fmt)
    (hne : fmt ≠ "") :
    (∀ e1 e2, save hashFn w st { o with extension := e1 }
        = save hashFn w st { o with extension := e2 }) ∧
    (∀ g, st.lastGeneration = some g → g.images ≠ [] →
      supportedFormats.contains (normalizeExt fmt) = false →
      save hashFn w st o = (.error (unsupportedMsg (normalizeExt fmt)), [])) ∧
    (∀ file ∈ (save hashFn w st o).2,
      file.format
        = (if normalizeExt fmt = "jpeg" then "jpg" else normalizeExt fmt) ∧
      ∃ s, file.name
        = s ++ "." ++ (if normalizeExt fmt = "jpeg" then "jpg"
            else normalizeExt fmt)) := by
  have heff : ∀ e, effectiveExt { o with extension := e } = fmt := by
    intro e
    simp [effectiveExt, hfo, hfmt, hne]
  have heffo : effectiveExt o = fmt := by
    simp [effectiveExt, hfo, hfmt, hne]
  refine ⟨?_, ?_, ?_⟩
  · intro e1 e2
    unfold save
    rw [heff e1, heff e2]
  · intro g hg hne2 hbad
    have h := save_unsupported_helper hashFn w st o g hg hne2
      (by rw [heffo]; exact hbad)
    rw [heffo] at h
    exact h
  · intro file hmem
    have h := save_written_shape hashFn w st o file hmem
    have hfe : fileExtOf o
        = (if normalizeExt fmt = "jpeg" then "jpg" else normalizeExt fmt) := by
      unfold fileExtOf
      rw [heffo]
    exact ⟨by rw [← hfe]; exact h.1, by rw [← hfe]; exact h.2.2.2⟩

theorem save_format_override_witness :
    save (fun s => s) (fun _ => none)
      { lastGeneration := some { prompt := "p", images := ["AA"] } }
      { extension := "png", formatOptions := some { format := some "bmp" } }
      = (.error (unsupportedMsg "bmp"), []) ∧
    (save (fun s => s) (fun _ => none)
      { lastGeneration := some { prompt := "p", images := ["AA"] } }
      { extension := "png", filename := some "f",
        formatOptions := some { format := some "webp" } }).2.map (·.format)
      = ["webp"] := by
  constructor
  · have h := (save_format_override (fun s => s) (fun _ => none)
      { lastGeneration := some { prompt := "p", images := ["AA"] } }
      { extension := "png", formatOptions := some { format := some "bmp" } }
      { format := some "bmp" } "bmp" rfl rfl (by decide)).2.1
      { prompt := "p", images := ["AA"] } rfl (by decide) (by decide)
    rw [h]
    decide
  · have h := (save_format_override (fun s => s) (fun _ => none)
      { lastGeneration := some { prompt := "p", images := ["AA"] } }
      { extension := "png", filename := some "f",
        formatOptions := some { format := some "webp" } }
      { format := some "webp" } "webp" rfl rfl (by decide)).2.2
    have hv : (save (fun s => s) (fun _ => none)
        { lastGeneration := some { prompt := "p", images := ["AA"] } }
        { extension := "png", filename := some "f",
          formatOptions := some { format := some "webp" } }).2.map (·.format)
        = (save (fun s => s) (fun _ => none)
        { lastGeneration := some { prompt := "p", images := ["AA"] } }
        { extension := "png", filename := some "f",
          formatOptions := some { format := some "webp" } }).2.map
            (fun _ => "webp") := by
      refine List.map_congr_left ?_
      intro file hmem
      have := (h file hmem).1
      simpa using this
    rw [hv]
    decide

/-! ## C1 — the inferred reference profile is never implicitly applied -/

/-- C1 (counterexample): a concrete state carrying an inferred profile whose
format matches the target format, with no explicit `formatOptions`: `save`
succeeds but encodes with the empty default options, not with the inferred
quality-70 profile. -/
theorem save_ignores_inferred_profile_cex :
    (getReferenceMetadata (some { format := some "jpg", quality := some 70 })
      = some { format := some "jpg", quality := some 70 }) ∧
    normalizeExt (effectiveExt
      { directory := "out", filename := some "f", extension := "jpg",
        formatOptions := none }) = "jpg" ∧
    ((save (fun s => s) (fun _ => none)
        { lastGeneration := some { prompt := "p", images := ["AA"] },
          referenceMetadata := some { format := some "jpg", quality := some 70 } }
        { directory := "out", filename := some "f", extension := "jpg",
          formatOptions := none }).2.map (·.opts) = [{}]) ∧
    ({} : SharpOpts).quality = none ∧
    (((some { format := some "jpg", quality := some 70 }
        : Option FormatOptions).getD {}).quality = some 70) := by
  refine ⟨rfl, by decide, by decide, rfl, rfl⟩

/-- C1 (amended): `save` never consults the inferred reference profile —
its result is independent of the `referenceMetadata` slot — and with no
explicit `formatOptions` every written file is encoded with the empty
format-default options and no resize. -/
theorem save_no_implicit_profile (hashFn : String → String)
    (w : Nat → Option String) (st : GenState) (o : SaveOptions)
    (hfo : o.formatOptions = none) :
    (∀ m, save hashFn w { st with referenceMetadata := m } o
      = save hashFn w st o) ∧
    (∀ file ∈ (save hashFn w st o).2,
      file.opts = {} ∧ file.resize = none) := by
  refine ⟨fun m => rfl, ?_⟩
  intro file hmem
  have h := save_written_shape hashFn w st o file hmem
  rw [hfo] at h
  exact ⟨h.2.1, h.2.2.1⟩

theorem save_no_implicit_profile_witness :
    (save (fun s => s) (fun _ => none)
      { lastGeneration := some { prompt := "p", images := ["AA"] },
        referenceMetadata := some { format := some "jpg", quality := some 70 } }
      { directory := "out", extension := "jpg" })
    = (save (fun s => s) (fun _ => none)
      { lastGeneration := some { prompt := "p", images := ["AA"] } }
      { directory := "out", extension := "jpg" }) := by
  exact (save_no_implicit_profile (fun s => s) (fun _ => none)
    { lastGeneration := some { prompt := "p", images := ["AA"] } }
    { directory := "out", extension := "jpg" } rfl).1
    (some { format := some "jpg", quality := some 70 })

/-! ## Helper lemmas about the fan-out -/

theorem firstRejection_none (outcomes : List (Except String ParseResult))
    (order : List Nat)
    (h : ∀ (i : Nat) (o : Except String ParseResult),
      outcomes[i]? = some o → ∃ r, o = Except.ok r) :
    firstRejection outcomes order = none := by
  induction order with
  | nil => rfl
  | cons i rest ih =>
    simp only [firstRejection]
    cases hi : outcomes[i]? with
    | none => exact ih
    | some o =>
      obtain ⟨r, rfl⟩ := h i o hi
      exact ih

theorem collectOks_map_ok (results : List ParseResult) :
    collectOks (results.map Except.ok) = results := by
  induction results with
  | nil => rfl
  | cons r rest ih =>
    simp only [collectOks, List.map_cons, List.filterMap_cons] at *
    rw [ih]

theorem foldl_mergeStep_images (l : List ParseResult) (acc : MergedResult) :
    (l.foldl mergeStep acc).images = acc.images ++ (l.map (·.images)).flatten := by
  induction l generalizing acc with
  | nil => simp
  | cons r rest ih =>
    simp only [List.foldl_cons, List.map_cons, List.flatten_cons]
    rw [ih]
    simp [mergeStep, List.append_assoc]

theorem mergeResults_images (results : List ParseResult) :
    (mergeResults results).images = (results.map (·.images)).flatten := by
  unfold mergeResults
  rw [foldl_mergeStep_images]
  simp

theorem flatten_length_ones (results : List ParseResult)
    (h : ∀ r ∈ results, r.images.length = 1) :
    ((results.map (·.images)).flatten).length = results.length := by
  induction results with
  | nil => rfl
  | cons r rest ih =>
    simp only [List.map_cons, List.flatten_cons, List.length_append,
      List.length_cons]
    rw [h r (by simp), ih fun x hx => h x (by simp [hx])]
    omega

theorem firstRejection_of_mem (outcomes : List (Except String ParseResult)) :
    ∀ (order : List Nat) (i : Nat) (e : String), i ∈ order →
      outcomes[i]? = some (Except.error e) →
      ∃ e2, firstRejection outcomes order = some e2 ∧
        ∃ j : Nat, outcomes[j]? = some (Except.error e2) := by
  intro order
  induction order with
  | nil => intro i e h; simp at h
  | cons k rest ih =>
    intro i e hmem hi
    simp only [firstRejection]
    cases hk : outcomes[k]? with
    | none =>
      have hr : i ∈ rest := by
        rcases List.mem_cons.mp hmem with h | h
        · subst h; rw [hi] at hk; cases hk
        · exact h
      exact ih i e hr hi
    | some o =>
      cases o with
      | error e3 => exact ⟨e3, rfl, k, hk⟩
      | ok r =>
        have hr : i ∈ rest := by
          rcases List.mem_cons.mp hmem with h | h
          · subst h; rw [hi] at hk; cases hk
          · exact h
        exact ih i e hr hi

theorem firstRejection_unique (outcomes : List (Except String ParseResult))
    (e : String)
    (huniq : ∀ (j : Nat) (e2 : String),
      outcomes[j]? = some (Except.error e2) → e2 = e) :
    ∀ (order : List Nat) (i : Nat), i ∈ order →
      outcomes[i]? = some (Except.error e) →
      firstRejection outcomes order = some e := by
  intro order
  induction order with
  | nil => intro i h; simp at h
  | cons k rest ih =>
    intro i hmem hi
    simp only [firstRejection]
    cases hk : outcomes[k]? with
    | none =>
      have hr : i ∈ rest := by
        rcases List.mem_cons.mp hmem with h | h
        · subst h; rw [hi] at hk; cases hk
        · exact h
      exact ih i hr hi
    | some o =>
      cases o with
      | error e3 => rw [huniq k e3 hk]
      | ok r =>
        have hr : i ∈ rest := by
          rcases List.mem_cons.mp hmem with h | h
          · subst h; rw [hi] at hk; cases hk
          · exact h
        exact ih i hr hi

/-! ## C2 — merge is by request index, independent of completion order -/

/-- C2 (counterexample): two sub-requests, both successful, but the second
success carries no image payload (a text-only response); the merged result
of the two successful sub-requests holds one image, not two. -/
theorem generateMultiple_count_cex :
    generateMultiple
      ([Except.ok { images := ["a"], text := "", raw := .many [] },
        Except.ok { images := [], text := "", raw := .many [] }]
        : List (Except String ParseResult))
      [0, 1]
      = .ok { images := ["a"], text := "", raw := [.many [], .many []] } ∧
    ([Except.ok { images := ["a"], text := "", raw := .many [] },
      Except.ok { images := [], text := "", raw := .many [] }]
      : List (Except String ParseResult)).length = 2 ∧
    (["a"] : List String).length ≠ 2 := by
  exact ⟨by decide, rfl, by decide⟩

/-- C2 (amended): when every sub-request succeeds, the fan-out succeeds for
every completion order, merging the sub-request image lists by
concatenation in request-index order; the merged list has exactly N
elements when each successful sub-request carries exactly one image. -/
theorem generateMultiple_merge_order (results : List ParseResult)
    (order : List Nat) :
    generateMultiple (results.map Except.ok) order = .ok (mergeResults results)
    ∧ (mergeResults results).images = (results.map (·.images)).flatten
    ∧ ((∀ r ∈ results, r.images.length = 1) →
        (mergeResults results).images.length = results.length) := by
  refine ⟨?_, mergeResults_images results, ?_⟩
  · have hnone : firstRejection (results.map Except.ok) order = none := by
      refine firstRejection_none _ _ ?_
      intro i o hio
      rw [List.getElem?_map] at hio
      cases hr : results[i]? with
      | none => rw [hr] at hio; cases hio
      | some r =>
        rw [hr] at hio
        exact ⟨r, by cases hio; rfl⟩
    unfold generateMultiple promiseAll
    rw [hnone, collectOks_map_ok]
  · intro h
    rw [mergeResults_images results]
    exact flatten_length_ones results h

theorem generateMultiple_merge_order_witness :
    generateMultiple
      ([Except.ok { images := ["a"], text := "t", raw := .many [] },
        Except.ok { images := ["b"], text := "t", raw := .many [] }]
        : List (Except String ParseResult))
      [1, 0]
      = .ok { images := ["a", "b"], text := "t\n", raw := [.many [], .many []] } ∧
    (mergeResults
      [({ images := ["a"], text := "t", raw := .many [] } : ParseResult),
       { images := ["b"], text := "t", raw := .many [] }]).images.length = 2 := by
  have h := generateMultiple_merge_order
    [({ images := ["a"], text := "t", raw := .many [] } : ParseResult),
     { images := ["b"], text := "t", raw := .many [] }] [1, 0]
  have h1 := h.1
  simp only [List.map_cons, List.map_nil] at h1
  constructor
  · rw [h1]
    decide
  · exact h.2.2 (by decide)

/-! ## C3 — fail-fast: a failed sub-request fails the whole call -/

/-- C3: if some sub-request rejected, then for every completion order that
is a permutation of the request indices the fan-out rejects — no partial
image list is returned — and the error it rejects with is the error of a
failed sub-request; when the failure is unique, it is exactly that
sub-request's error. -/
theorem generateMultiple_fail_fast (outcomes : List (Except String ParseResult))
    (order : List Nat) (i : Nat) (e : String)
    (hperm : order.Perm (List.range outcomes.length))
    (hi : outcomes[i]? = some (Except.error e)) :
    (∃ e2, generateMultiple outcomes order = .error e2 ∧
      ∃ j : Nat, outcomes[j]? = some (Except.error e2)) ∧
    ((∀ (j : Nat) (e2 : String),
        outcomes[j]? = some (Except.error e2) → e2 = e) →
      generateMultiple outcomes order = .error e) := by
  have hlt : i < outcomes.length := by
    by_contra hge
    rw [List.getElem?_eq_none (by omega)] at hi
    cases hi
  have hmem : i ∈ order := hperm.mem_iff.mpr (List.mem_range.mpr hlt)
  constructor
  · obtain ⟨e2, hfr, j, hj⟩ := firstRejection_of_mem outcomes order i e hmem hi
    refine ⟨e2, ?_, j, hj⟩
    unfold generateMultiple promiseAll
    rw [hfr]
  · intro huniq
    have hfr := firstRejection_unique outcomes e huniq order i hmem hi
    unfold generateMultiple promiseAll
    rw [hfr]

theorem generateMultiple_fail_fast_witness :
    generateMultiple
      ([Except.ok { images := ["a"], text := "", raw := .many [] },
        Except.error "Gemini API Error: boom"]
        : List (Except String ParseResult)) [1, 0]
      = .error "Gemini API Error: boom" := by
  refine (generateMultiple_fail_fast
    ([Except.ok { images := ["a"], text := "", raw := .many [] },
      Except.error "Gemini API Error: boom"]
      : List (Except String ParseResult)) [1, 0] 1 "Gemini API Error: boom"
    (by decide) (by decide)).2 ?_
  intro j e2 hj
  match j with
  | 0 => simp at hj
  | 1 =>
    simp at hj
    exact hj.symm
  | n + 2 => simp at hj

/-! ## Helper lemmas about the data-URI matcher -/

theorem splitAtSemi_eq_some {l a b : List Char} :
    splitAtSemi l = some (a, b) ↔ l = a ++ ';' :: b ∧ (∀ c ∈ a, c ≠ ';') := by
  induction l generalizing a with
  | nil =>
    constructor
    · intro h; simp [splitAtSemi] at h
    · rintro ⟨h, -⟩
      exact absurd h (by simp)
  | cons c rest ih =>
    by_cases hc : c = ';'
    · subst hc
      constructor
      · intro h
        simp only [splitAtSemi, if_pos rfl] at h
        cases h
        simp
      · rintro ⟨heq, hfree⟩
        cases a with
        | nil =>
          simp only [List.nil_append, List.cons.injEq] at heq
          rw [heq.2]
          simp [splitAtSemi]
        | cons x a2 =>
          have hx : (';' : Char) = x := by
            have := congrArg (fun t => t.headI) heq
            simpa using this
          exact absurd hx.symm (hfree x (by simp))
    · simp only [splitAtSemi, if_neg hc]
      constructor
      · intro h
        cases hs : splitAtSemi rest with
        | none => rw [hs] at h; cases h
        | some p =>
          obtain ⟨a2, b2⟩ := p
          rw [hs] at h
          simp only [Option.some_inj, Prod.mk.injEq] at h
          obtain ⟨ha, hb⟩ := h
          subst hb
          obtain ⟨hrest, hfree⟩ := ih.mp hs
          constructor
          · rw [← ha, hrest]; rfl
          · intro y hy
            rw [← ha] at hy
            rcases List.mem_cons.mp hy with h1 | h1
            · subst h1; exact hc
            · exact hfree y h1
      · rintro ⟨heq, hfree⟩
        cases a with
        | nil =>
          simp only [List.nil_append, List.cons.injEq] at heq
          exact absurd heq.1 hc
        | cons x a2 =>
          have h1 : c = x := by
            have := congrArg (fun t => t.headI) heq
            simpa using this
          subst h1
          have h2 : rest = a2 ++ ';' :: b := by
            have := congrArg List.tail heq
            simpa using this
          have hs : splitAtSemi rest = some (a2, b) :=
            ih.mpr ⟨h2, fun y hy => hfree y (by simp [hy])⟩
          rw [hs]

/-- The executable matcher decides exactly the strict textual pattern
`data:image/<subtype>;base64,<payload>` of the specification. -/
theorem dataUriMatch_iff_strict (s mime payload : String) :
    dataUriMatch s = some (mime, payload) ↔ StrictDataUriSpec s mime payload := by
  constructor
  · intro h
    unfold dataUriMatch at h
    cases hL : dataUriMatchL s.data with
    | none => rw [hL] at h; cases h
    | some p =>
      obtain ⟨sub, pay⟩ := p
      rw [hL] at h
      simp only [Option.map_some', Option.some_inj, Prod.mk.injEq] at h
      obtain ⟨hm, hp⟩ := h
      unfold dataUriMatchL at hL
      cases hdp : dropPrefixList "data:image/".data s.data with
      | none => rw [hdp] at hL; simp at hL
      | some t =>
        rw [hdp] at hL
        simp only [Option.some_bind] at hL
        cases hsp : splitAtSemi t with
        | none => rw [hsp] at hL; simp at hL
        | some q =>
          obtain ⟨sub2, u⟩ := q
          rw [hsp] at hL
          simp only [Option.some_bind] at hL
          unfold dataUriAfterSemi at hL
          by_cases hsub : sub2 = []
          · rw [if_pos hsub] at hL; cases hL
          · rw [if_neg hsub] at hL
            cases hb : dropPrefixList "base64,".data u with
            | none => rw [hb] at hL; simp at hL
            | some pay2 =>
              rw [hb] at hL
              simp only [Option.some_bind] at hL
              by_cases hpay : pay2 = []
              · rw [if_pos hpay] at hL; cases hL
              · rw [if_neg hpay] at hL
                by_cases hdot : pay2.all jsDotChar = true
                · rw [if_pos hdot] at hL
                  simp only [Option.some_inj, Prod.mk.injEq] at hL
                  obtain ⟨hs1, hs2⟩ := hL
                  subst hs1
                  subst hs2
                  obtain ⟨ht, hfree⟩ := splitAtSemi_eq_some.mp hsp
                  refine ⟨sub2, hsub, hfree, ?_, ?_, ?_, ?_⟩
                  · rw [← hp]; simpa using hpay
                  · rw [← hp]
                    intro c hc
                    exact List.all_eq_true.mp hdot c (by simpa using hc)
                  · have hu : u = "base64,".data ++ pay2 :=
                      dropPrefixList_eq_some.mp hb
                    have hsd : s.data = "data:image/".data ++ t :=
                      dropPrefixList_eq_some.mp hdp
                    rw [hsd, ht, hu, ← hp]
                    simp
                  · rw [← hm]
                · rw [if_neg hdot] at hL; cases hL
  · rintro ⟨sub, hsub, hfree, hpay, hdot, hs, hm⟩
    have hsplit : "data:image/".data ++ sub ++ ";base64,".data ++ payload.data
        = "data:image/".data ++ (sub ++ ';' :: ("base64,".data ++ payload.data)) := by
      have hsemi : (";base64,".data : List Char) = ';' :: "base64,".data := rfl
      rw [hsemi]
      simp
    have h2 : splitAtSemi (sub ++ ';' :: ("base64,".data ++ payload.data))
        = some (sub, "base64,".data ++ payload.data) :=
      splitAtSemi_eq_some.mpr ⟨rfl, hfree⟩
    have hdot2 : payload.data.all jsDotChar = true :=
      List.all_eq_true.mpr fun c hc => hdot c hc
    have hLval : dataUriMatchL s.data = some (sub, payload.data) := by
      unfold dataUriMatchL
      rw [hs, hsplit, dropPrefixList_self_append]
      simp only [Option.some_bind]
      rw [h2]
      simp only [Option.some_bind]
      unfold dataUriAfterSemi
      rw [if_neg hsub, dropPrefixList_self_append]
      simp only [Option.some_bind]
      rw [if_neg hpay, if_pos hdot2]
    unfold dataUriMatch
    rw [hLval]
    simp only [Option.map_some', Option.some_inj, Prod.mk.injEq]
    constructor
    · rw [← hm]
    · trivial

theorem dataUriMatch_mime_prefix {s mime payload : String}
    (h : dataUriMatch s = some (mime, payload)) :
    strStartsWith mime "image/" = true := by
  obtain ⟨sub, -, -, -, -, -, hm⟩ := (dataUriMatch_iff_strict s mime payload).mp h
  unfold strStartsWith
  rw [hm, dropPrefixList_self_append]
  rfl

theorem mimeFromExt_mem_allowList (e : String) : mimeFromExt e ∈ allowList := by
  unfold mimeFromExt allowList
  split
  · simp
  · split
    · simp
    · split
      · simp
      · split
        · simp
        · split
          · simp
          · simp

/-! ## C6 — resulting MIME types of reference resolution -/

/-- C6 (counterexample): a URL-sourced reference whose response carries
content-type `text/html` resolves successfully with MIME `text/html`, which
is neither in the fixed allow-list nor the generic default. -/
theorem processReferenceImage_mime_cex :
    ((processReferenceImage
        { fetch := fun _ => .ok { body := [], contentType := some "text/html" },
          readFile := fun _ => .error "x", meta := fun _ => .error "x",
          stat := fun _ => .error "x", rawPixels := fun _ => .error "x" }
        none (.str "http://e.x/a")).1
      = .ok ({ data := "", mimeType := "text/html" }, none)) ∧
    "text/html" ∉ allowList ∧ "text/html" ≠ "image/png" := by
  refine ⟨by decide, by decide, by decide⟩

/-- C6 (amended): the MIME type of a resolved reference is `image/png` for
buffer inputs, has the `image/` prefix for data-URI inputs, comes from the
fixed table (whose range is the four-type allow-list, default `image/png`)
for file-path inputs, and for URL inputs is whatever truthy content-type
header the response carries, defaulting to `image/png` — the URL branch is
not restricted to the allow-list. -/
theorem processReferenceImage_mime_cases (env : Env)
    (st : Option FormatOptions) :
    (∀ (b : List Nat) r,
      (processReferenceImage env st (.buffer b)).1 = .ok r →
      r.1.mimeType = "image/png") ∧
    (∀ (s : String) r, strStartsWith s "data:image/" = true →
      (processReferenceImage env st (.str s)).1 = .ok r →
      strStartsWith r.1.mimeType "image/" = true) ∧
    (∀ (s : String) r, strStartsWith s "data:image/" = false →
      (strStartsWith s "http://" || strStartsWith s "https://") = false →
      (processReferenceImage env st (.str s)).1 = .ok r →
      r.1.mimeType ∈ allowList) ∧
    (∀ (s : String) r resp, strStartsWith s "data:image/" = false →
      (strStartsWith s "http://" || strStartsWith s "https://") = true →
      env.fetch s = .ok resp →
      (processReferenceImage env st (.str s)).1 = .ok r →
      r.1.mimeType = (match resp.contentType with
        | some ct => if ct = "" then "image/png" else ct
        | none => "image/png")) := by
  refine ⟨?_, ?_, ?_, ?_⟩
  · intro b r h
    cases h
    rfl
  · intro s r hpre h
    simp only [processReferenceImage] at h
    rw [hpre] at h
    simp only [if_true] at h
    cases hdm : dataUriMatch s with
    | none => rw [hdm] at h; cases h
    | some mp =>
      obtain ⟨m, payload⟩ := mp
      rw [hdm] at h
      cases h
      exact dataUriMatch_mime_prefix hdm
  · intro s r hpre hurl h
    simp only [processReferenceImage] at h
    rw [hpre] at h
    simp only [Bool.false_eq_true, if_false] at h
    rw [hurl] at h
    simp only [Bool.false_eq_true, if_false] at h
    cases hrf : env.readFile s with
    | error msg => rw [hrf] at h; cases h
    | ok bytes =>
      rw [hrf] at h
      cases h
      exact mimeFromExt_mem_allowList _
  · intro s r resp hpre hurl hf h
    simp only [processReferenceImage] at h
    rw [hpre] at h
    simp only [Bool.false_eq_true, if_false] at h
    rw [hurl] at h
    simp only [if_true] at h
    rw [hf] at h
    cases h
    rfl

theorem processReferenceImage_mime_cases_witness :
    ((processReferenceImage
        { fetch := fun _ => .error "x", readFile := fun _ => .error "x",
          meta := fun _ => .error "x", stat := fun _ => .error "x",
          rawPixels := fun _ => .error "x" }
        none (.buffer [1, 2, 3])).1
      = .ok ({ data := b64Encode [1, 2, 3], mimeType := "image/png" }, none)) ∧
    "image/png" = "image/png" := by
  refine ⟨by decide, ?_⟩
  have h := (processReferenceImage_mime_cases
    { fetch := fun _ => .error "x", readFile := fun _ => .error "x",
      meta := fun _ => .error "x", stat := fun _ => .error "x",
      rawPixels := fun _ => .error "x" } none).1 [1, 2, 3]
    ({ data := b64Encode [1, 2, 3], mimeType := "image/png" }, none)
    (by decide)
  exact h

/-! ## C9 — strict data-URI parsing and effect freedom -/

/-- C9: buffer inputs and `data:image/`-prefixed string inputs perform no
network fetch and no file read; a `data:image/`-prefixed string failing the
strict pattern makes resolution throw the invalid-data-URI error, while a
match succeeds with the matched MIME and payload; and the executable
pattern is exactly the strict `image/<subtype>;base64,<payload>` template
of the specification. -/
theorem processReferenceImage_dataUri_strict (env : Env)
    (st : Option FormatOptions) :
    (∀ b : List Nat, (processReferenceImage env st (.buffer b)).2 = []) ∧
    (∀ s : String, strStartsWith s "data:image/" = true →
      (processReferenceImage env st (.str s)).2 = []) ∧
    (∀ s : String, strStartsWith s "data:image/" = true →
      dataUriMatch s = none →
      (processReferenceImage env st (.str s)).1
        = .error "Invalid data URI format for reference image") ∧
    (∀ (s m p : String), strStartsWith s "data:image/" = true →
      dataUriMatch s = some (m, p) →
      (processReferenceImage env st (.str s)).1
        = .ok ({ data := p, mimeType := m }, st)) ∧
    (∀ (s m p : String),
      dataUriMatch s = some (m, p) ↔ StrictDataUriSpec s m p) := by
  refine ⟨fun b => rfl, ?_, ?_, ?_, fun s m p => dataUriMatch_iff_strict s m p⟩
  · intro s hpre
    simp only [processReferenceImage]
    rw [hpre]
    simp only [if_true]
    cases hdm : dataUriMatch s with
    | none => rfl
    | some mp => rfl
  · intro s hpre hdm
    simp only [processReferenceImage]
    rw [hpre]
    simp only [if_true]
    rw [hdm]
  · intro s m p hpre hdm
    simp only [processReferenceImage]
    rw [hpre]
    simp only [if_true]
    rw [hdm]

theorem processReferenceImage_dataUri_strict_witness :
    ((processReferenceImage
        { fetch := fun _ => .error "x", readFile := fun _ => .error "x",
          meta := fun _ => .error "x", stat := fun _ => .error "x",
          rawPixels := fun _ => .error "x" }
        none (.str "data:image/;base64,AA")).1
      = .error "Invalid data URI format for reference image") ∧
    ((processReferenceImage
        { fetch := fun _ => .error "x", readFile := fun _ => .error "x",
          meta := fun _ => .error "x", stat := fun _ => .error "x",
          rawPixels := fun _ => .error "x" }
        none (.str "data:image/png;base64,QUJD")).1
      = .ok ({ data := "QUJD", mimeType := "image/png" }, none)) ∧
    ((processReferenceImage
        { fetch := fun _ => .error "x", readFile := fun _ => .error "x",
          meta := fun _ => .error "x", stat := fun _ => .error "x",
          rawPixels := fun _ => .error "x" }
        none (.str "data:image/png;base64,QUJD")).2 = []) := by
  have h := processReferenceImage_dataUri_strict
    { fetch := fun _ => .error "x", readFile := fun _ => .error "x",
      meta := fun _ => .error "x", stat := fun _ => .error "x",
      rawPixels := fun _ => .error "x" } none
  refine ⟨h.2.2.1 "data:image/;base64,AA" (by decide) (by decide),
    h.2.2.2.1 "data:image/png;base64,QUJD" "image/png" "QUJD" (by decide)
      (by decide),
    h.2.1 "data:image/png;base64,QUJD" (by decide)⟩

/-! ## C8 — metadata-inference failures are non-fatal but leave the old
profile in place -/

/-- C8 (counterexample): with a previously inferred profile in the slot, a
failing inference leaves that stale profile, not an unset one. -/
theorem extractReferenceMetadata_stale_cex :
    (extractReferenceMetadata
      { fetch := fun _ => .error "x", readFile := fun _ => .ok [],
        meta := fun _ => .error "unsupported image format",
        stat := fun _ => .error "s", rawPixels := fun _ => .error "r" }
      (some { format := some "png", compressionLevel := some 9 }) "img.png"
      = some { format := some "png", compressionLevel := some 9 }) ∧
    ((extractReferenceMetadataBody
      { fetch := fun _ => .error "x", readFile := fun _ => .ok [],
        meta := fun _ => .error "unsupported image format",
        stat := fun _ => .error "s", rawPixels := fun _ => .error "r" }
      "img.png").isOk = false) ∧
    some ({ format := some "png", compressionLevel := some 9 }
      : FormatOptions) ≠ none := by
  refine ⟨rfl, rfl, by decide⟩

/-- C8 (amended): for a file-path reference whose bytes can be read, the
resolution succeeds no matter how the metadata-inference collaborators
behave (an inference failure never aborts the generate call), and a failed
inference leaves the `referenceMetadata` slot unchanged — it is unset after
the failure only if it was unset before. -/
theorem extractReferenceMetadata_nonfatal (env : Env)
    (st : Option FormatOptions) (s : String) (bytes : List Nat)
    (hpre : strStartsWith s "data:image/" = false)
    (hurl : (strStartsWith s "http://" || strStartsWith s "https://") = false)
    (hread : env.readFile s = .ok bytes) :
    ((processReferenceImage env st (.str s)).1
      = .ok ({ data := b64Encode bytes, mimeType := mimeFromExt (extnameLower s) },
             extractReferenceMetadata env st s)) ∧
    (∀ e, extractReferenceMetadataBody env s = .error e →
      extractReferenceMetadata env st s = st) := by
  constructor
  · simp only [processReferenceImage]
    rw [hpre]
    simp only [Bool.false_eq_true, if_false]
    rw [hurl]
    simp only [Bool.false_eq_true, if_false]
    rw [hread]
  · intro e he
    unfold extractReferenceMetadata
    rw [he]

theorem extractReferenceMetadata_nonfatal_witness :
    (processReferenceImage
      { fetch := fun _ => .error "x", readFile := fun _ => .ok [1, 2],
        meta := fun _ => .error "unsupported image format",
        stat := fun _ => .error "s", rawPixels := fun _ => .error "r" }
      (some { format := some "png", compressionLevel := some 9 })
      (.str "img.jpg")).1
      = .ok ({ data := b64Encode [1, 2], mimeType := "image/jpeg" },
             some { format := some "png", compressionLevel := some 9 }) := by
  have h := extractReferenceMetadata_nonfatal
    { fetch := fun _ => .error "x", readFile := fun _ => .ok [1, 2],
      meta := fun _ => .error "unsupported image format",
      stat := fun _ => .error "s", rawPixels := fun _ => .error "r" }
    (some { format := some "png", compressionLevel := some 9 }) "img.jpg"
    [1, 2] (by decide) (by decide) rfl
  rw [h.1]
  have h2 := h.2 "unsupported image format" rfl
  rw [h2]
  have h3 : mimeFromExt (extnameLower "img.jpg") = "image/jpeg" := by decide
  rw [h3]

/-! ## Response-parsing extraction stated from the specification

Order-preserving extraction over the parts in the order they appear within
and across chunks, skipping parts without recognizable content, stated
directly from the specification text for comparison with `processResponse`. -/

/-- The image payload a part contributes, if any. -/
def partImageOut (p : Part) : Option String :=
  match p.inlineData with
  | some d =>
    match d.mimeType with
    | some m =>
      if strStartsWith m "image/" then
        some ("data:" ++ m ++ ";base64," ++ d.data)
      else none
    | none => none
  | none => none

/-- The text a part contributes, if any (JS-truthy only). -/
def partTextOut (p : Part) : Option String :=
  match p.text with
  | some t => if t = "" then none else some t
  | none => none

/-- A part on which the image guard can be evaluated without a JS
`TypeError`: any `inlineData` must carry a `mimeType`. -/
def partOk (p : Part) : Bool :=
  match p.inlineData with
  | some d => d.mimeType.isSome
  | none => true

def candParts (cand : Candidate) : List Part :=
  match cand.content with
  | none => []
  | some ct =>
    match ct.parts with
    | none => []
    | some ps => ps

def chunkParts (ch : Chunk) : List Part :=
  match ch.candidates with
  | none => []
  | some cs => (cs.map candParts).flatten

/-- All parts of an envelope in traversal order. -/
def envelopeParts (e : Envelope) : List Part :=
  (e.chunks.map chunkParts).flatten

def envelopeOk (e : Envelope) : Bool :=
  (envelopeParts e).all partOk

def specImages (e : Envelope) : List String :=
  (envelopeParts e).filterMap partImageOut

def textConcat (ps : List Part) : String :=
  (ps.filterMap partTextOut).foldl (fun a b => a ++ b) ""

def specText (e : Envelope) : String := textConcat (envelopeParts e)

/-! ## Helper lemmas about response parsing -/

theorem foldlAppendString (l : List String) (s : String) :
    l.foldl (fun a b => a ++ b) s = s ++ l.foldl (fun a b => a ++ b) "" := by
  induction l generalizing s with
  | nil => simp
  | cons h t ih =>
    simp only [List.foldl_cons]
    rw [ih (s ++ h), ih ("" ++ h), String.empty_append, String.append_assoc]

theorem textConcat_cons (p : Part) (rest : List Part) :
    textConcat (p :: rest) = (partTextOut p).getD "" ++ textConcat rest := by
  unfold textConcat
  cases h : partTextOut p with
  | none => simp [List.filterMap_cons, h]
  | some t =>
    simp only [List.filterMap_cons, h, List.foldl_cons, Option.getD_some]
    rw [foldlAppendString ((rest.filterMap partTextOut)) ("" ++ t),
      String.empty_append]

theorem processParts_cons_ok (acc acc2 : List String × String) (p : Part)
    (rest : List Part) (h : processPart acc p = .ok acc2) :
    processParts acc (p :: rest) = processParts acc2 rest := by
  simp only [processParts, h]

theorem processPart_ok (p : Part) (hp : partOk p = true)
    (acc : List String × String) :
    processPart acc p
      = .ok (acc.1 ++ (partImageOut p).toList,
             acc.2 ++ (partTextOut p).getD "") := by
  obtain ⟨t, i⟩ := p
  cases i with
  | none =>
    cases t with
    | none => simp [processPart, partImageOut, partTextOut]
    | some t0 =>
      by_cases he : t0 = "" <;>
        simp [processPart, partImageOut, partTextOut, he]
  | some d =>
    obtain ⟨mt, dat⟩ := d
    cases mt with
    | none => exact absurd hp (by simp [partOk])
    | some m =>
      by_cases hi : strStartsWith m "image/" = true
      · cases t with
        | none => simp [processPart, partImageOut, partTextOut, hi]
        | some t0 =>
          by_cases he : t0 = "" <;>
            simp [processPart, partImageOut, partTextOut, hi, he]
      · rw [Bool.not_eq_true] at hi
        cases t with
        | none => simp [processPart, partImageOut, partTextOut, hi]
        | some t0 =>
          by_cases he : t0 = "" <;>
            simp [processPart, partImageOut, partTextOut, hi, he]

theorem processParts_ok (ps : List Part)
    (hp : ∀ p ∈ ps, partOk p = true) (acc : List String × String) :
    processParts acc ps
      = .ok (acc.1 ++ ps.filterMap partImageOut, acc.2 ++ textConcat ps) := by
  induction ps generalizing acc with
  | nil => simp [processParts, textConcat]
  | cons p rest ih =>
    rw [processParts_cons_ok acc _ p rest (processPart_ok p (hp p (by simp)) acc)]
    rw [ih (fun x hx => hp x (by simp [hx]))]
    rw [textConcat_cons, List.filterMap_cons]
    cases hio : partImageOut p with
    | none => simp [String.append_assoc]
    | some img => simp [String.append_assoc, List.append_assoc]

theorem processParts_append (ps1 ps2 : List Part) :
    ∀ acc, processParts acc (ps1 ++ ps2)
      = match processParts acc ps1 with
        | .ok a => processParts a ps2
        | .error e => .error e := by
  induction ps1 with
  | nil => intro acc; rfl
  | cons p rest ih =>
    intro acc
    simp only [List.cons_append, processParts]
    cases processPart acc p with
    | ok a => exact ih a
    | error e => rfl

theorem processCandidate_eq (acc : List String × String) (cand : Candidate) :
    processCandidate acc cand = processParts acc (candParts cand) := by
  obtain ⟨content⟩ := cand
  cases content with
  | none => rfl
  | some ct =>
    obtain ⟨parts⟩ := ct
    cases parts with
    | none => rfl
    | some ps => rfl

theorem processCandidates_eq (cs : List Candidate) :
    ∀ acc, processCandidates acc cs
      = processParts acc ((cs.map candParts).flatten) := by
  induction cs with
  | nil => intro acc; rfl
  | cons c rest ih =>
    intro acc
    simp only [processCandidates, List.map_cons, List.flatten_cons]
    rw [processParts_append]
    rw [← processCandidate_eq]
    cases processCandidate acc c with
    | ok a => exact ih a
    | error e => rfl

theorem processChunk_eq (acc : List String × String) (ch : Chunk) :
    processChunk acc ch = processParts acc (chunkParts ch) := by
  obtain ⟨cands⟩ := ch
  cases cands with
  | none => rfl
  | some cs => exact processCandidates_eq cs acc

theorem processChunks_eq (chs : List Chunk) :
    ∀ acc, processChunks acc chs
      = processParts acc ((chs.map chunkParts).flatten) := by
  induction chs with
  | nil => intro acc; rfl
  | cons c rest ih =>
    intro acc
    simp only [processChunks, List.map_cons, List.flatten_cons]
    rw [processParts_append]
    rw [← processChunk_eq]
    cases processChunk acc c with
    | ok a => exact ih a
    | error e => rfl

/-! ## C7 — response parsing: totality and ordered extraction -/

/-- A part carrying `inlineData` with no `mimeType`. -/
def partNoMime : Part := { inlineData := some { mimeType := none, data := "" } }

/-- An envelope whose single part is `partNoMime`. -/
def envBadW : Envelope :=
  .one { candidates := some [{ content := some { parts := some [partNoMime] } }] }

/-- C7 (counterexample): a response whose single part carries `inlineData`
without a `mimeType` — a part with no recognizable image content — makes
`processResponse` throw a `TypeError` instead of skipping the part. -/
theorem processResponse_missing_mime_cex :
    processResponse envBadW = .error typeErrMsg := by
  decide

/-- C7 (amended): on every envelope all of whose `inlineData` parts carry a
`mimeType`, parsing never fails: it returns exactly the order-preserving
extraction over the parts as they appear within and across chunks, skipping
any part without recognizable image or text content, and an envelope with
zero candidates or zero parts yields the empty result. -/
theorem processResponse_total_ordered (e : Envelope)
    (h : envelopeOk e = true) :
    processResponse e
      = .ok { images := specImages e, text := specText e, raw := e } := by
  have hp : ∀ p ∈ envelopeParts e, partOk p = true :=
    fun p hmem => List.all_eq_true.mp h p hmem
  have hrw : (List.map chunkParts e.chunks).flatten = envelopeParts e := rfl
  have hchunks : processChunks ([], "") e.chunks
      = .ok (specImages e, specText e) := by
    rw [processChunks_eq, hrw, processParts_ok _ hp]
    simp [specImages, specText]
  unfold processResponse
  rw [hchunks]

def partTextA : Part := { text := some "a" }

def partImgPng : Part :=
  { inlineData := some { mimeType := some "image/png", data := "X" } }

def partVid : Part :=
  { inlineData := some { mimeType := some "video/mp4", data := "Z" } }

def partImgWebp : Part :=
  { inlineData := some { mimeType := some "image/webp", data := "Y" } }

/-- A well-formed three-chunk envelope exercising text parts, image parts,
skipped non-image parts and a chunk with no candidates. -/
def envW : Envelope :=
  .many
    [{ candidates := some [{ content := some { parts := some [partTextA, partImgPng, partVid] } }] },
     { candidates := none },
     { candidates := some [{ content := some { parts := some [partImgWebp] } }] }]

theorem processResponse_total_ordered_witness :
    envelopeOk envW = true ∧
    processResponse envW
      = .ok { images := ["data:image/png;base64,X", "data:image/webp;base64,Y"],
              text := "a", raw := envW } ∧
    processResponse (.many [])
      = .ok { images := [], text := "", raw := .many [] } := by
  refine ⟨by decide, ?_, ?_⟩
  · rw [processResponse_total_ordered envW (by decide)]
    decide
  · rw [processResponse_total_ordered (.many []) (by decide)]
    rfl

end GenMix
